import Mathlib

/-!
Verification development for the break-scheduling store (`backend/storage.py`).

The store keeps two tables, `breaks` and `break_revisions`, in SQLite; here
they are lists of rows, and every store method becomes a pure function from a
`StoreState` to a result together with the post-state.  The Python methods run
inside a connection context manager that commits only on clean exit, so an
exception rolls the transaction back; accordingly every error branch below
returns the entry state unchanged.

Inputs reaching `_time_to_minutes` come from JSON payloads, so they may be
`None` or a non-string; `PyValue` models that.  Python's `int()` (ASCII
whitespace stripping, an optional sign, digits with single underscores
between digits) and `str.split(":")` are modelled character-by-character.
-/

/-- A JSON-ish value handed to the store: a string, `None`, or any other
non-string value (number, list, ...).  Non-strings have no `.split`, so the
`AttributeError` is caught and becomes a validation error. -/
inductive PyValue
  | str (s : String)
  | noneV
  | other
deriving DecidableEq

/-- The store's error taxonomy: `BreakValidationError`, `BreakNotFoundError`,
and `internal` for the one reachable uncaught-exception path
(`dict(None)` in `restore_revision` when the break row is missing). -/
inductive StoreError
  | validation
  | notFound
  | internal
deriving DecidableEq

/-- ASCII whitespace stripped by Python's `int()` before parsing. -/
def isPySpace (c : Char) : Bool :=
  c = ' ' || c = '\t' || c = '\n' || c = '\r' || c = '\x0b' || c = '\x0c'

/-- Strip leading and trailing whitespace, as `int()` does. -/
def stripPySpaces (cs : List Char) : List Char :=
  ((cs.dropWhile isPySpace).reverse.dropWhile isPySpace).reverse

/-- After one digit has been consumed: the rest of an `int()` literal is
digits, with each underscore followed by a digit. -/
def intTail : List Char → Bool
  | [] => true
  | c :: rest =>
    if c.isDigit then intTail rest
    else if c = '_' then
      match rest with
      | [] => false
      | d :: rest2 => d.isDigit && intTail rest2
    else false

/-- A nonempty digit run acceptable to `int()` (underscores only between
digits). -/
def digitRun : List Char → Bool
  | [] => false
  | c :: rest => c.isDigit && intTail rest

/-- Numeric value of a digit run, ignoring underscores. -/
def digitsVal (cs : List Char) : Nat :=
  cs.foldl (fun acc c => if c = '_' then acc else acc * 10 + (c.toNat - 48)) 0

/-- Python `int(s)` on a string, restricted to ASCII: strip whitespace, then
an optional sign and a digit run; `none` models the `ValueError`. -/
def pyInt (cs : List Char) : Option Int :=
  match stripPySpaces cs with
  | '+' :: rest => if digitRun rest then some (Int.ofNat (digitsVal rest)) else none
  | '-' :: rest => if digitRun rest then some (-(Int.ofNat (digitsVal rest))) else none
  | rest => if digitRun rest then some (Int.ofNat (digitsVal rest)) else none

/-- Python `s.split(":")`: `""` gives `[""]`, `":"` gives `["",""]`. -/
def splitCols : List Char → List (List Char)
  | [] => [[]]
  | c :: rest =>
    let r := splitCols rest
    if c = ':' then [] :: r
    else
      match r with
      | [] => [[c]]
      | g :: gs => (c :: g) :: gs

/-- `_time_to_minutes`: split on `:`, unpack into exactly two parts
(`ValueError` otherwise), `int()` both (`ValueError` on failure), range-check
hour and minute.  All caught exceptions surface as validation errors. -/
def _time_to_minutes : PyValue → Except StoreError Int
  | PyValue.str s =>
    match splitCols s.data with
    | [hs, ms] =>
      match pyInt hs, pyInt ms with
      | some h, some m =>
        if 0 ≤ h ∧ h ≤ 23 ∧ 0 ≤ m ∧ m ≤ 59 then Except.ok (h * 60 + m)
        else Except.error StoreError.validation
      | _, _ => Except.error StoreError.validation
    | _ => Except.error StoreError.validation
  | _ => Except.error StoreError.validation

/-- `_ranges_overlap`: half-open interval overlap on minutes-of-day. -/
def _ranges_overlap (start_a end_a start_b end_b : Int) : Bool :=
  max start_a start_b < min end_a end_b

/-- A row of the `breaks` table (timestamps omitted: no claim concerns
`created_at`/`updated_at`). -/
structure BreakRow where
  id : Nat
  start_time : String
  end_time : String
  description : String
  is_deleted : Bool
deriving DecidableEq

/-- A row of the `break_revisions` table (`changed_at` omitted). -/
structure RevisionRow where
  id : Nat
  break_id : Option Nat
  start_time : String
  end_time : String
  description : String
  change_type : String
  changed_by : String
deriving DecidableEq

/-- The database state: both tables plus the AUTOINCREMENT counters. -/
structure StoreState where
  breaks : List BreakRow
  revisions : List RevisionRow
  next_break_id : Nat
  next_revision_id : Nat
deriving DecidableEq

/-- A fresh database: empty tables, AUTOINCREMENT counters at 1. -/
def initialState : StoreState :=
  { breaks := [], revisions := [], next_break_id := 1, next_revision_id := 1 }

/-- The rows scanned by `_validate_time_range`:
`WHERE is_deleted = 0` plus the optional `AND id != ?`. -/
def activeRows (st : StoreState) (exclude_id : Option Nat) : List BreakRow :=
  st.breaks.filter fun r =>
    !r.is_deleted &&
      match exclude_id with
      | some i => decide (r.id ≠ i)
      | none => true

/-- The validation loop body: parse each existing row's times (a parse
failure propagates, as in the Python loop) and fail on the first overlap. -/
def checkRows (s e : Int) : List BreakRow → Except StoreError Unit
  | [] => Except.ok ()
  | r :: rest =>
    match _time_to_minutes (PyValue.str r.start_time) with
    | Except.error err => Except.error err
    | Except.ok es =>
      match _time_to_minutes (PyValue.str r.end_time) with
      | Except.error err => Except.error err
      | Except.ok ee =>
        if _ranges_overlap s e es ee then Except.error StoreError.validation
        else checkRows s e rest

/-- `_validate_time_range`: parse both times, require strict ordering, then
scan every other active break for overlap.  Returns the parsed pair (the
Python function returns `None`; the pair records what it computed). -/
def _validate_time_range (st : StoreState) (start fin : PyValue)
    (exclude_id : Option Nat) : Except StoreError (Int × Int) :=
  match _time_to_minutes start with
  | Except.error e => Except.error e
  | Except.ok s =>
    match _time_to_minutes fin with
    | Except.error e => Except.error e
    | Except.ok e =>
      if s ≥ e then Except.error StoreError.validation
      else
        match checkRows s e (activeRows st exclude_id) with
        | Except.error err => Except.error err
        | Except.ok _ => Except.ok (s, e)

/-- The string inside a `PyValue`; every code path that stores a value has
already parsed it successfully, which forces the `str` case. -/
def pyStr : PyValue → String
  | PyValue.str s => s
  | _ => ""

/-- `create_break`: validate, insert with the auto-assigned id, append a
`create` revision, return the inserted row.  Any exception rolls back. -/
def create_break (st : StoreState) (start fin : PyValue)
    (description changed_by : String) : Except StoreError BreakRow × StoreState :=
  match _validate_time_range st start fin none with
  | Except.error e => (Except.error e, st)
  | Except.ok _ =>
    let row : BreakRow :=
      { id := st.next_break_id, start_time := pyStr start, end_time := pyStr fin,
        description := description, is_deleted := false }
    let rev : RevisionRow :=
      { id := st.next_revision_id, break_id := some row.id,
        start_time := pyStr start, end_time := pyStr fin, description := description,
        change_type := "create", changed_by := changed_by }
    (Except.ok row,
      { st with breaks := st.breaks ++ [row], revisions := st.revisions ++ [rev],
                next_break_id := st.next_break_id + 1,
                next_revision_id := st.next_revision_id + 1 })

/-- `update_break`: fetch the row (`fetchone` = first match), not-found when
missing or soft-deleted, validate excluding this id, update the row in place,
append an `update` revision, return the updated row. -/
def update_break (st : StoreState) (break_id : Nat) (start fin : PyValue)
    (description changed_by : String) : Except StoreError BreakRow × StoreState :=
  match st.breaks.find? (fun r => r.id = break_id) with
  | none => (Except.error StoreError.notFound, st)
  | some existing =>
    if existing.is_deleted then (Except.error StoreError.notFound, st)
    else
      match _validate_time_range st start fin (some break_id) with
      | Except.error e => (Except.error e, st)
      | Except.ok _ =>
        let newBreaks := st.breaks.map fun r =>
          if r.id = break_id then
            { r with start_time := pyStr start, end_time := pyStr fin,
                     description := description }
          else r
        let rev : RevisionRow :=
          { id := st.next_revision_id, break_id := some break_id,
            start_time := pyStr start, end_time := pyStr fin,
            description := description, change_type := "update",
            changed_by := changed_by }
        (Except.ok { existing with start_time := pyStr start, end_time := pyStr fin,
                                   description := description },
          { st with breaks := newBreaks, revisions := st.revisions ++ [rev],
                    next_revision_id := st.next_revision_id + 1 })

/-- `delete_break`: same lookup rule as update, then set the soft-delete
flag and append a `delete` revision holding the pre-delete field values. -/
def delete_break (st : StoreState) (break_id : Nat) (changed_by : String) :
    Except StoreError Unit × StoreState :=
  match st.breaks.find? (fun r => r.id = break_id) with
  | none => (Except.error StoreError.notFound, st)
  | some existing =>
    if existing.is_deleted then (Except.error StoreError.notFound, st)
    else
      let newBreaks := st.breaks.map fun r =>
        if r.id = break_id then { r with is_deleted := true } else r
      let rev : RevisionRow :=
        { id := st.next_revision_id, break_id := some break_id,
          start_time := existing.start_time, end_time := existing.end_time,
          description := existing.description, change_type := "delete",
          changed_by := changed_by }
      (Except.ok (),
        { st with breaks := newBreaks, revisions := st.revisions ++ [rev],
                  next_revision_id := st.next_revision_id + 1 })

/-- `restore_revision`: look up the revision, require a break reference,
re-validate its stored times excluding that break, overwrite the break's
fields and clear `is_deleted`, append a `restore` revision, and re-fetch the
row.  If no break row has that id the re-fetch is `None` and `dict(None)`
raises before commit, rolling everything back (`internal`). -/
def restore_revision (st : StoreState) (revision_id : Nat) (changed_by : String) :
    Except StoreError BreakRow × StoreState :=
  match st.revisions.find? (fun r => r.id = revision_id) with
  | none => (Except.error StoreError.notFound, st)
  | some revision =>
    match revision.break_id with
    | none => (Except.error StoreError.notFound, st)
    | some break_id =>
      match _validate_time_range st (PyValue.str revision.start_time)
          (PyValue.str revision.end_time) (some break_id) with
      | Except.error e => (Except.error e, st)
      | Except.ok _ =>
        let newBreaks := st.breaks.map fun r =>
          if r.id = break_id then
            { r with start_time := revision.start_time,
                     end_time := revision.end_time,
                     description := revision.description, is_deleted := false }
          else r
        let rev : RevisionRow :=
          { id := st.next_revision_id, break_id := some break_id,
            start_time := revision.start_time, end_time := revision.end_time,
            description := revision.description, change_type := "restore",
            changed_by := changed_by }
        match newBreaks.find? (fun r => r.id = break_id) with
        | none => (Except.error StoreError.internal, st)
        | some row =>
          (Except.ok row,
            { st with breaks := newBreaks, revisions := st.revisions ++ [rev],
                      next_revision_id := st.next_revision_id + 1 })

/-- The `ORDER BY start_time ASC, id ASC` key, as SQLite compares the TEXT
column (bytewise, which on UTF-8 is codepoint order). -/
def breakLe (a b : BreakRow) : Bool :=
  if a.start_time = b.start_time then a.id ≤ b.id
  else decide (a.start_time < b.start_time)

/-- `list_breaks`: filter unless `include_deleted`, then sort by the key. -/
def list_breaks (st : StoreState) (include_deleted : Bool) : List BreakRow :=
  (if include_deleted then st.breaks
   else st.breaks.filter fun r => !r.is_deleted).mergeSort breakLe

/-- One bootstrap JSON entry.  `startv`/`endv` model the `start`/`end` keys
(absent keys are `none`); values are taken as strings, the shape the seed
file uses. -/
structure SeedEntry where
  sid : Option Nat
  startv : Option String
  endv : Option String
  description : Option String
  name : Option String
deriving DecidableEq

/-- The parsed bootstrap file: `payload.get("breaks", [])`. -/
structure SeedFile where
  breaks : List SeedEntry
deriving DecidableEq

/-- `_insert_break`: auto-id insert, or an upsert when the entry carries its
own id (`ON CONFLICT(id) DO UPDATE`, which also clears `is_deleted`).  An
explicit id pushes the AUTOINCREMENT sequence past it. -/
def _insert_break (st : StoreState) (start_time end_time description : String)
    (break_id : Option Nat) : Nat × StoreState :=
  match break_id with
  | none =>
    let bid := st.next_break_id
    (bid,
      { st with
          breaks := st.breaks ++
            [{ id := bid, start_time := start_time, end_time := end_time,
               description := description, is_deleted := false }],
          next_break_id := bid + 1 })
  | some bid =>
    if st.breaks.any (fun r => r.id = bid) then
      (bid,
        { st with breaks := st.breaks.map fun r =>
            if r.id = bid then
              { r with start_time := start_time, end_time := end_time,
                       description := description, is_deleted := false }
            else r })
    else
      (bid,
        { st with
            breaks := st.breaks ++
              [{ id := bid, start_time := start_time, end_time := end_time,
                 description := description, is_deleted := false }],
            next_break_id := max st.next_break_id (bid + 1) })

/-- One iteration of the seed loop: skip entries missing `start` or `end`,
otherwise insert the break (no time validation of any kind) and append a
`seed` revision. -/
def seedEntryStep (changed_by : String) (st : StoreState) (item : SeedEntry) :
    StoreState :=
  match item.startv, item.endv with
  | some s, some e =>
    let description := item.description.getD (item.name.getD "")
    let p := _insert_break st s e description item.sid
    { p.2 with
        revisions := p.2.revisions ++
          [{ id := p.2.next_revision_id, break_id := some p.1,
             start_time := s, end_time := e, description := description,
             change_type := "seed", changed_by := changed_by }],
        next_revision_id := p.2.next_revision_id + 1 }
  | _, _ => st

/-- `seed_from_json`: no-op when the file is absent (`file = none`) or any
active break exists; otherwise fold the seed loop over the entries. -/
def seed_from_json (st : StoreState) (file : Option SeedFile)
    (changed_by : String) : StoreState :=
  match file with
  | none => st
  | some payload =>
    if st.breaks.any (fun r => !r.is_deleted) then st
    else payload.breaks.foldl (seedEntryStep changed_by) st

/-- Two rows overlap when both parse and the parsed half-open intervals
intersect. -/
def overlapsRow (a b : BreakRow) : Prop :=
  ∃ sa ea sb eb,
    _time_to_minutes (PyValue.str a.start_time) = Except.ok sa ∧
    _time_to_minutes (PyValue.str a.end_time) = Except.ok ea ∧
    _time_to_minutes (PyValue.str b.start_time) = Except.ok sb ∧
    _time_to_minutes (PyValue.str b.end_time) = Except.ok eb ∧
    _ranges_overlap sa ea sb eb = true

/-- States reachable from a fresh database by `create_break`, `update_break`
and `restore_revision` calls (a failed call leaves the state unchanged, so
including failures loses nothing). -/
inductive Reachable : StoreState → Prop
  | init : Reachable initialState
  | create (st : StoreState) (a b : PyValue) (d cb : String) :
      Reachable st → Reachable (create_break st a b d cb).2
  | update (st : StoreState) (i : Nat) (a b : PyValue) (d cb : String) :
      Reachable st → Reachable (update_break st i a b d cb).2
  | restore (st : StoreState) (i : Nat) (cb : String) :
      Reachable st → Reachable (restore_revision st i cb).2

/-- Break ids are pairwise distinct (the `id` column is a primary key). -/
def IdsNodup (st : StoreState) : Prop :=
  st.breaks.Pairwise fun a b => a.id ≠ b.id

/-- Every break id is below the AUTOINCREMENT counter. -/
def IdsBounded (st : StoreState) : Prop :=
  ∀ r ∈ st.breaks, r.id < st.next_break_id

/-- No two distinct active breaks have overlapping intervals. -/
def NoOverlap (st : StoreState) : Prop :=
  ∀ a ∈ st.breaks, ∀ b ∈ st.breaks,
    a.is_deleted = false → b.is_deleted = false → a.id ≠ b.id → ¬ overlapsRow a b

/-- One store operation of any kind, relating pre- to post-state. -/
inductive StoreStep : StoreState → StoreState → Prop
  | create (st : StoreState) (a b : PyValue) (d cb : String) :
      StoreStep st (create_break st a b d cb).2
  | update (st : StoreState) (i : Nat) (a b : PyValue) (d cb : String) :
      StoreStep st (update_break st i a b d cb).2
  | delete (st : StoreState) (i : Nat) (cb : String) :
      StoreStep st (delete_break st i cb).2
  | restore (st : StoreState) (i : Nat) (cb : String) :
      StoreStep st (restore_revision st i cb).2
  | seed (st : StoreState) (f : Option SeedFile) (cb : String) :
      StoreStep st (seed_from_json st f cb)

/-- The update/delete not-found condition: no row with this id, or the first
such row is soft-deleted. -/
def missingOrDeleted (st : StoreState) (i : Nat) : Prop :=
  st.breaks.find? (fun r => r.id = i) = none ∨
    ∃ r, st.breaks.find? (fun r2 => r2.id = i) = some r ∧ r.is_deleted = true

/-- A bootstrap file whose first two entries overlap (09:00-09:30 and
09:15-09:45) and whose third entry is not a time at all; `seed_from_json`
accepts all three. -/
def overlappingSeedFile : SeedFile :=
  { breaks :=
      [{ sid := none, startv := some "09:00", endv := some "09:30",
         description := some "A", name := none },
       { sid := none, startv := some "09:15", endv := some "09:45",
         description := some "B", name := none },
       { sid := none, startv := some "banana", endv := some "split",
         description := none, name := some "C" }] }

/-- A store holding one active break 09:00-09:15 with its `create`
revision; used to exercise the store operations at a concrete state. -/
def oneBreakState : StoreState :=
  { breaks := [{ id := 1, start_time := "09:00", end_time := "09:15",
                 description := "Morning", is_deleted := false }],
    revisions := [{ id := 1, break_id := some 1, start_time := "09:00",
                    end_time := "09:15", description := "Morning",
                    change_type := "create", changed_by := "u" }],
    next_break_id := 2, next_revision_id := 2 }

/-! ## Helper lemmas -/

theorem tm_error_validation (v : PyValue) (e : StoreError)
    (h : _time_to_minutes v = Except.error e) : e = StoreError.validation := by
  cases v with
  | str s =>
    simp only [_time_to_minutes] at h
    split at h
    · split at h
      · split at h <;> simp_all
      · simp_all
    · simp_all
  | noneV => simp [_time_to_minutes] at h; exact h.symm
  | other => simp [_time_to_minutes] at h; exact h.symm

theorem tm_ok_str (v : PyValue) (n : Int)
    (h : _time_to_minutes v = Except.ok n) : v = PyValue.str (pyStr v) := by
  cases v with
  | str s => rfl
  | noneV => simp [_time_to_minutes] at h
  | other => simp [_time_to_minutes] at h

theorem checkRows_error_validation (s e : Int) (l : List BreakRow) (err : StoreError)
    (h : checkRows s e l = Except.error err) : err = StoreError.validation := by
  induction l with
  | nil => simp [checkRows] at h
  | cons r rest ih =>
    simp only [checkRows] at h
    split at h
    · injection h with h2
      subst h2
      exact tm_error_validation _ _ (by assumption)
    · split at h
      · injection h with h2
        subst h2
        exact tm_error_validation _ _ (by assumption)
      · split at h
        · injection h with h2
          exact h2.symm
        · exact ih h

theorem checkRows_ok (s e : Int) (l : List BreakRow)
    (h : checkRows s e l = Except.ok ()) :
    ∀ r ∈ l, ∀ rs re_ : Int,
      _time_to_minutes (PyValue.str r.start_time) = Except.ok rs →
      _time_to_minutes (PyValue.str r.end_time) = Except.ok re_ →
      _ranges_overlap s e rs re_ = false := by
  induction l with
  | nil => intro r hr; simp at hr
  | cons q rest ih =>
    intro r hr rs re_ hrs hre
    simp only [checkRows] at h
    split at h
    next => cases h
    next qs heqs =>
      split at h
      next => cases h
      next qe heqe =>
        split at h
        next => cases h
        next hov =>
          rcases List.mem_cons.mp hr with hq | hmem
          · subst hq
            rw [hrs] at heqs
            rw [hre] at heqe
            injection heqs with h1
            injection heqe with h2
            subst h1
            subst h2
            simpa using hov
          · exact ih h r hmem rs re_ hrs hre

theorem validate_error_validation (st : StoreState) (a b : PyValue)
    (x : Option Nat) (e : StoreError)
    (h : _validate_time_range st a b x = Except.error e) :
    e = StoreError.validation := by
  simp only [_validate_time_range] at h
  split at h
  · injection h with h2; subst h2; exact tm_error_validation _ _ (by assumption)
  · split at h
    · injection h with h2; subst h2; exact tm_error_validation _ _ (by assumption)
    · split at h
      · injection h with h2; exact h2.symm
      · split at h
        · injection h with h2; subst h2
          exact checkRows_error_validation _ _ _ _ (by assumption)
        · cases h

theorem validate_ok (st : StoreState) (a b : PyValue) (x : Option Nat) (s e : Int)
    (h : _validate_time_range st a b x = Except.ok (s, e)) :
    _time_to_minutes a = Except.ok s ∧ _time_to_minutes b = Except.ok e ∧ s < e ∧
    ∀ r ∈ activeRows st x, ∀ rs re_ : Int,
      _time_to_minutes (PyValue.str r.start_time) = Except.ok rs →
      _time_to_minutes (PyValue.str r.end_time) = Except.ok re_ →
      _ranges_overlap s e rs re_ = false := by
  simp only [_validate_time_range] at h
  split at h
  next => cases h
  next s0 heqa =>
    split at h
    next => cases h
    next e0 heqb =>
      split at h
      next => cases h
      next hge =>
        split at h
        next => cases h
        next u hchk =>
          injection h with h2
          obtain ⟨rfl, rfl⟩ := Prod.mk.injEq .. |>.mp h2
          exact ⟨heqa, heqb, by omega, checkRows_ok _ _ _ hchk⟩

theorem ranges_overlap_comm (a b c d : Int) :
    _ranges_overlap a b c d = _ranges_overlap c d a b := by
  simp [_ranges_overlap, max_comm, min_comm]

theorem not_overlapsRow_both (s e : Int) (x y : BreakRow)
    (hxs : _time_to_minutes (PyValue.str x.start_time) = Except.ok s)
    (hxe : _time_to_minutes (PyValue.str x.end_time) = Except.ok e)
    (hall : ∀ rs re_ : Int,
      _time_to_minutes (PyValue.str y.start_time) = Except.ok rs →
      _time_to_minutes (PyValue.str y.end_time) = Except.ok re_ →
      _ranges_overlap s e rs re_ = false) :
    ¬ overlapsRow x y ∧ ¬ overlapsRow y x := by
  constructor
  · rintro ⟨sa, ea, sb, eb, p1, p2, p3, p4, hov⟩
    rw [hxs] at p1; rw [hxe] at p2
    injection p1 with q1; injection p2 with q2
    subst q1; subst q2
    rw [hall sb eb p3 p4] at hov
    cases hov
  · rintro ⟨sa, ea, sb, eb, p1, p2, p3, p4, hov⟩
    rw [hxs] at p3; rw [hxe] at p4
    injection p3 with q1; injection p4 with q2
    subst q1; subst q2
    rw [ranges_overlap_comm] at hov
    rw [hall sa ea p1 p2] at hov
    cases hov

theorem mem_activeRows (st : StoreState) (x : Option Nat) (r : BreakRow)
    (hr : r ∈ st.breaks) (hdel : r.is_deleted = false)
    (hex : ∀ i, x = some i → r.id ≠ i) : r ∈ activeRows st x := by
  refine List.mem_filter.mpr ⟨hr, ?_⟩
  cases x with
  | none => simp [hdel]
  | some i => simp [hdel, hex i rfl]

theorem create_preserves (st : StoreState) (a b : PyValue) (d cb : String)
    (hn : IdsNodup st) (hb : IdsBounded st) (ho : NoOverlap st) :
    IdsNodup (create_break st a b d cb).2 ∧ IdsBounded (create_break st a b d cb).2 ∧
      NoOverlap (create_break st a b d cb).2 := by
  simp only [create_break]
  split
  next => exact ⟨hn, hb, ho⟩
  next p heq =>
    obtain ⟨hpa, hpb, hlt, hchk⟩ := validate_ok st a b none p.1 p.2 heq
    have ha2 : _time_to_minutes (PyValue.str (pyStr a)) = Except.ok p.1 := by
      rw [← tm_ok_str a p.1 hpa]; exact hpa
    have hb2 : _time_to_minutes (PyValue.str (pyStr b)) = Except.ok p.2 := by
      rw [← tm_ok_str b p.2 hpb]; exact hpb
    refine ⟨?_, ?_, ?_⟩
    · simp only [IdsNodup, List.pairwise_append]
      refine ⟨hn, by simp, ?_⟩
      intro x hx y hy
      simp only [List.mem_singleton] at hy
      subst hy
      have := hb x hx
      simp only []
      omega
    · intro r hr
      simp only [List.mem_append, List.mem_singleton] at hr
      rcases hr with hr | hr
      · have := hb r hr; simp only []; omega
      · subst hr; simp only []; omega
    · intro x hx y hy hdx hdy hne
      simp only [List.mem_append, List.mem_singleton] at hx hy
      rcases hx with hx | hx <;> rcases hy with hy | hy
      · exact ho x hx y hy hdx hdy hne
      · subst hy
        refine (not_overlapsRow_both p.1 p.2 _ x ha2 hb2 ?_).2
        exact hchk x (mem_activeRows st none x hx hdx (fun i hi => by cases hi))
      · subst hx
        refine (not_overlapsRow_both p.1 p.2 _ y ha2 hb2 ?_).1
        exact hchk y (mem_activeRows st none y hy hdy (fun i hi => by cases hi))
      · subst hx; subst hy; exact absurd rfl hne

theorem update_preserves (st : StoreState) (i : Nat) (a b : PyValue) (d cb : String)
    (hn : IdsNodup st) (hb : IdsBounded st) (ho : NoOverlap st) :
    IdsNodup (update_break st i a b d cb).2 ∧ IdsBounded (update_break st i a b d cb).2 ∧
      NoOverlap (update_break st i a b d cb).2 := by
  simp only [update_break]
  split
  next => exact ⟨hn, hb, ho⟩
  next existing hfind =>
    split
    next => exact ⟨hn, hb, ho⟩
    next hdel =>
      split
      next => exact ⟨hn, hb, ho⟩
      next p heq =>
        obtain ⟨hpa, hpb, hlt, hchk⟩ := validate_ok st a b (some i) p.1 p.2 heq
        have ha2 : _time_to_minutes (PyValue.str (pyStr a)) = Except.ok p.1 := by
          rw [← tm_ok_str a p.1 hpa]; exact hpa
        have hb2 : _time_to_minutes (PyValue.str (pyStr b)) = Except.ok p.2 := by
          rw [← tm_ok_str b p.2 hpb]; exact hpb
        set f : BreakRow → BreakRow := fun r =>
          if r.id = i then
            { r with start_time := pyStr a, end_time := pyStr b, description := d }
          else r with hf
        have f_id : ∀ r, (f r).id = r.id := by
          intro r; by_cases h : r.id = i <;> simp [hf, h]
        have f_del : ∀ r, (f r).is_deleted = r.is_deleted := by
          intro r; by_cases h : r.id = i <;> simp [hf, h]
        refine ⟨?_, ?_, ?_⟩
        · exact List.pairwise_map.mpr (hn.imp (by intro x y hxy; rw [f_id, f_id]; exact hxy))
        · intro r hr
          obtain ⟨q, hq, rfl⟩ := List.mem_map.mp hr
          rw [f_id]
          exact hb q hq
        · intro x hx y hy hdx hdy hne
          obtain ⟨r, hr, rfl⟩ := List.mem_map.mp hx
          obtain ⟨q, hq, rfl⟩ := List.mem_map.mp hy
          rw [f_del] at hdx hdy
          rw [f_id, f_id] at hne
          by_cases hri : r.id = i <;> by_cases hqi : q.id = i
          · exact absurd (hri.trans hqi.symm) hne
          · have hfr : f r = { r with start_time := pyStr a, end_time := pyStr b, description := d } := by
              simp [hf, hri]
            have hfq : f q = q := by simp [hf, hqi]
            rw [hfr, hfq]
            refine (not_overlapsRow_both p.1 p.2 _ q ?_ ?_ ?_).1
            · exact ha2
            · exact hb2
            · exact hchk q (mem_activeRows st (some i) q hq hdy
                (fun j hj => by injection hj with hj2; rw [← hj2]; exact hqi))
          · have hfq : f q = { q with start_time := pyStr a, end_time := pyStr b, description := d } := by
              simp [hf, hqi]
            have hfr : f r = r := by simp [hf, hri]
            rw [hfr, hfq]
            refine (not_overlapsRow_both p.1 p.2 _ r ?_ ?_ ?_).2
            · exact ha2
            · exact hb2
            · exact hchk r (mem_activeRows st (some i) r hr hdx
                (fun j hj => by injection hj with hj2; rw [← hj2]; exact hri))
          · have hfr : f r = r := by simp [hf, hri]
            have hfq : f q = q := by simp [hf, hqi]
            rw [hfr, hfq]
            exact ho r hr q hq hdx hdy hne

theorem restore_preserves (st : StoreState) (i : Nat) (cb : String)
    (hn : IdsNodup st) (hb : IdsBounded st) (ho : NoOverlap st) :
    IdsNodup (restore_revision st i cb).2 ∧ IdsBounded (restore_revision st i cb).2 ∧
      NoOverlap (restore_revision st i cb).2 := by
  simp only [restore_revision]
  split
  next => exact ⟨hn, hb, ho⟩
  next revision hfind =>
    split
    next => exact ⟨hn, hb, ho⟩
    next bid hbid =>
      split
      next => exact ⟨hn, hb, ho⟩
      next p heq =>
        obtain ⟨hpa, hpb, hlt, hchk⟩ := validate_ok st _ _ (some bid) p.1 p.2 heq
        set f : BreakRow → BreakRow := fun r =>
          if r.id = bid then
            { r with start_time := revision.start_time, end_time := revision.end_time,
                     description := revision.description, is_deleted := false }
          else r with hf
        have f_id : ∀ r, (f r).id = r.id := by
          intro r; by_cases h : r.id = bid <;> simp [hf, h]
        split
        next => exact ⟨hn, hb, ho⟩
        next row hrow =>
          refine ⟨?_, ?_, ?_⟩
          · exact List.pairwise_map.mpr (hn.imp (by intro x y hxy; rw [f_id, f_id]; exact hxy))
          · intro r hr
            obtain ⟨q, hq, rfl⟩ := List.mem_map.mp hr
            rw [f_id]
            exact hb q hq
          · intro x hx y hy hdx hdy hne
            obtain ⟨r, hr, rfl⟩ := List.mem_map.mp hx
            obtain ⟨q, hq, rfl⟩ := List.mem_map.mp hy
            rw [f_id, f_id] at hne
            by_cases hri : r.id = bid <;> by_cases hqi : q.id = bid
            · exact absurd (hri.trans hqi.symm) hne
            · have hfq : f q = q := by simp [hf, hqi]
              rw [hfq] at hdy ⊢
              have hfr : f r = { r with start_time := revision.start_time, end_time := revision.end_time, description := revision.description, is_deleted := false } := by simp [hf, hri]
              rw [hfr]
              refine (not_overlapsRow_both p.1 p.2 _ q hpa hpb ?_).1
              exact hchk q (mem_activeRows st (some bid) q hq hdy
                (fun j hj => by injection hj with hj2; rw [← hj2]; exact hqi))
            · have hfr : f r = r := by simp [hf, hri]
              rw [hfr] at hdx ⊢
              have hfq : f q = { q with start_time := revision.start_time, end_time := revision.end_time, description := revision.description, is_deleted := false } := by simp [hf, hqi]
              rw [hfq]
              refine (not_overlapsRow_both p.1 p.2 _ r hpa hpb ?_).2
              exact hchk r (mem_activeRows st (some bid) r hr hdx
                (fun j hj => by injection hj with hj2; rw [← hj2]; exact hri))
            · have hfr : f r = r := by simp [hf, hri]
              have hfq : f q = q := by simp [hf, hqi]
              rw [hfr] at hdx ⊢
              rw [hfq] at hdy ⊢
              exact ho r hr q hq hdx hdy hne

theorem reachable_inv (st : StoreState) (h : Reachable st) :
    IdsNodup st ∧ IdsBounded st ∧ NoOverlap st := by
  induction h with
  | init =>
    refine ⟨List.Pairwise.nil, ?_, ?_⟩
    · intro r hr; simp [initialState] at hr
    · intro x hx; simp [initialState] at hx
  | create st a b d cb _ ih => exact create_preserves st a b d cb ih.1 ih.2.1 ih.2.2
  | update st i a b d cb _ ih => exact update_preserves st i a b d cb ih.1 ih.2.1 ih.2.2
  | restore st i cb _ ih => exact restore_preserves st i cb ih.1 ih.2.1 ih.2.2

/-- Claim C1: along any sequence of `create_break`, `update_break` and
`restore_revision` calls from a fresh store, the active breaks are pairwise
non-overlapping in their parsed `[start, end)` minute intervals. -/
theorem no_overlap_invariant (st : StoreState) (h : Reachable st) :
    (st.breaks.filter fun r => !r.is_deleted).Pairwise fun a b => ¬ overlapsRow a b := by
  obtain ⟨hn, _, ho⟩ := reachable_inv st h
  have hp := hn.filter (fun r => !r.is_deleted)
  refine hp.imp_of_mem ?_
  intro a b ha hb hne
  have ha2 := List.mem_filter.mp ha
  have hb2 := List.mem_filter.mp hb
  exact ho a ha2.1 b hb2.1 (by simpa using ha2.2) (by simpa using hb2.2) hne

/-- Witness for C1: the invariant evaluated after one concrete create. -/
theorem no_overlap_invariant_witness :
    (((create_break initialState (PyValue.str "09:00") (PyValue.str "09:15") "m" "u").2).breaks.filter
        fun r => !r.is_deleted).Pairwise fun a b => ¬ overlapsRow a b :=
  no_overlap_invariant _ (Reachable.create _ _ _ _ _ Reachable.init)

theorem breakLe_trans (a b c : BreakRow) (h1 : breakLe a b = true)
    (h2 : breakLe b c = true) : breakLe a c = true := by
  simp only [breakLe] at h1 h2 ⊢
  by_cases e1 : a.start_time = b.start_time <;> by_cases e2 : b.start_time = c.start_time
  · rw [if_pos e1] at h1
    rw [if_pos e2] at h2
    rw [if_pos (e1.trans e2)]
    simp only [decide_eq_true_eq] at *
    omega
  · rw [if_pos e1] at h1
    rw [if_neg e2] at h2
    rw [if_neg (e1 ▸ e2), e1]
    exact h2
  · rw [if_neg e1] at h1
    rw [if_pos e2] at h2
    rw [if_neg (fun h => e1 (h.trans e2.symm)), ← e2]
    exact h1
  · rw [if_neg e1] at h1
    rw [if_neg e2] at h2
    simp only [decide_eq_true_eq] at h1 h2
    have h3 : a.start_time < c.start_time := lt_trans h1 h2
    rw [if_neg (ne_of_lt h3)]
    exact decide_eq_true h3

theorem breakLe_total (a b : BreakRow) : (breakLe a b || breakLe b a) = true := by
  simp only [breakLe]
  by_cases e : a.start_time = b.start_time
  · rw [if_pos e, if_pos e.symm]
    simp only [Bool.or_eq_true, decide_eq_true_eq]
    omega
  · rw [if_neg e, if_neg (fun h => e h.symm)]
    simp only [Bool.or_eq_true, decide_eq_true_eq]
    rcases lt_or_gt_of_ne e with h | h
    · exact Or.inl h
    · exact Or.inr h

theorem breakLe_iff (a b : BreakRow) : breakLe a b = true ↔
    (a.start_time < b.start_time ∨ (a.start_time = b.start_time ∧ a.id ≤ b.id)) := by
  simp only [breakLe]
  by_cases e : a.start_time = b.start_time
  · rw [if_pos e]
    simp [e, lt_irrefl]
  · rw [if_neg e]
    simp [e]

/-- Claim C5: for every store state, `list_breaks` returns exactly the
active rows (all rows with `include_deleted`), non-decreasing by the stored
`start` value and, within equal `start`, non-decreasing by `id`. -/
theorem list_breaks_sorted_claim (st : StoreState) (incl : Bool) :
    ((list_breaks st incl).Pairwise fun a b =>
        a.start_time < b.start_time ∨ (a.start_time = b.start_time ∧ a.id ≤ b.id)) ∧
      (list_breaks st incl).Perm
        (if incl then st.breaks else st.breaks.filter fun r => !r.is_deleted) := by
  constructor
  · have hs := List.sorted_mergeSort breakLe_trans breakLe_total
      (if incl then st.breaks else st.breaks.filter fun r => !r.is_deleted)
    simp only [list_breaks]
    exact hs.imp (fun h => (breakLe_iff _ _).mp h)
  · simp only [list_breaks]
    exact List.mergeSort_perm _ _

theorem create_error_unchanged (st : StoreState) (a b : PyValue) (d cb : String)
    (e : StoreError) (h : (create_break st a b d cb).1 = Except.error e) :
    (create_break st a b d cb).2 = st := by
  cases hv : _validate_time_range st a b none with
  | error e0 => simp only [create_break, hv]
  | ok p => simp [create_break, hv] at h

theorem create_ok_shape (st : StoreState) (a b : PyValue) (d cb : String)
    (r : BreakRow) (h : (create_break st a b d cb).1 = Except.ok r) :
    ∃ rev : RevisionRow, rev.change_type = "create" ∧
      (create_break st a b d cb).2.revisions = st.revisions ++ [rev] ∧
      (create_break st a b d cb).2.breaks = st.breaks ++ [r] := by
  cases hv : _validate_time_range st a b none with
  | error e0 => simp [create_break, hv] at h
  | ok p =>
    simp only [create_break, hv] at h ⊢
    injection h with h2
    subst h2
    exact ⟨_, rfl, rfl, rfl⟩

theorem update_error_unchanged (st : StoreState) (i : Nat) (a b : PyValue)
    (d cb : String) (e : StoreError)
    (h : (update_break st i a b d cb).1 = Except.error e) :
    (update_break st i a b d cb).2 = st := by
  cases hf : st.breaks.find? (fun r => r.id = i) with
  | none => simp only [update_break, hf]
  | some existing =>
    cases hdel : existing.is_deleted with
    | true => simp [update_break, hf, hdel]
    | false =>
      cases hv : _validate_time_range st a b (some i) with
      | error e0 => simp [update_break, hf, hdel, hv]
      | ok p => simp [update_break, hf, hdel, hv] at h

theorem update_ok_shape (st : StoreState) (i : Nat) (a b : PyValue)
    (d cb : String) (r : BreakRow)
    (h : (update_break st i a b d cb).1 = Except.ok r) :
    ∃ rev : RevisionRow, rev.change_type = "update" ∧
      (update_break st i a b d cb).2.revisions = st.revisions ++ [rev] ∧
      r ∈ (update_break st i a b d cb).2.breaks := by
  cases hf : st.breaks.find? (fun r2 => r2.id = i) with
  | none => simp [update_break, hf] at h
  | some existing =>
    cases hdel : existing.is_deleted with
    | true => simp [update_break, hf, hdel] at h
    | false =>
      cases hv : _validate_time_range st a b (some i) with
      | error e0 => simp [update_break, hf, hdel, hv] at h
      | ok p =>
        simp only [update_break, hf, hdel, Bool.false_eq_true, if_false, hv] at h ⊢
        injection h with h2
        refine ⟨_, rfl, rfl, ?_⟩
        have hid : existing.id = i := by
          have := List.find?_some hf
          simpa using this
        have hmem : existing ∈ st.breaks := List.mem_of_find?_eq_some hf
        refine List.mem_map.mpr ⟨existing, hmem, ?_⟩
        rw [if_pos hid]
        rw [← h2, hdel]

theorem delete_error_unchanged (st : StoreState) (i : Nat) (cb : String)
    (e : StoreError) (h : (delete_break st i cb).1 = Except.error e) :
    (delete_break st i cb).2 = st := by
  cases hf : st.breaks.find? (fun r => r.id = i) with
  | none => simp only [delete_break, hf]
  | some existing =>
    cases hdel : existing.is_deleted with
    | true => simp [delete_break, hf, hdel]
    | false => simp [delete_break, hf, hdel] at h

theorem delete_ok_shape (st : StoreState) (i : Nat) (cb : String)
    (h : (delete_break st i cb).1 = Except.ok ()) :
    ∃ rev : RevisionRow, rev.change_type = "delete" ∧
      (delete_break st i cb).2.revisions = st.revisions ++ [rev] ∧
      ∃ r ∈ (delete_break st i cb).2.breaks, r.id = i ∧ r.is_deleted = true := by
  cases hf : st.breaks.find? (fun r2 => r2.id = i) with
  | none => simp [delete_break, hf] at h
  | some existing =>
    cases hdel : existing.is_deleted with
    | true => simp [delete_break, hf, hdel] at h
    | false =>
      simp only [delete_break, hf, hdel, Bool.false_eq_true, if_false]
      refine ⟨_, rfl, rfl, ?_⟩
      have hid : existing.id = i := by
        have := List.find?_some hf
        simpa using this
      have hmem : existing ∈ st.breaks := List.mem_of_find?_eq_some hf
      refine ⟨{ existing with is_deleted := true }, ?_, hid, rfl⟩
      refine List.mem_map.mpr ⟨existing, hmem, ?_⟩
      rw [if_pos hid]

theorem restore_error_unchanged (st : StoreState) (i : Nat) (cb : String)
    (e : StoreError) (h : (restore_revision st i cb).1 = Except.error e) :
    (restore_revision st i cb).2 = st := by
  cases hf : st.revisions.find? (fun r => r.id = i) with
  | none => simp only [restore_revision, hf]
  | some revision =>
    cases hb : revision.break_id with
    | none => simp only [restore_revision, hf, hb]
    | some bid =>
      cases hv : _validate_time_range st (PyValue.str revision.start_time)
          (PyValue.str revision.end_time) (some bid) with
      | error e0 => simp only [restore_revision, hf, hb, hv]
      | ok p =>
        cases hrow : (st.breaks.map fun r =>
            if r.id = bid then
              { r with start_time := revision.start_time, end_time := revision.end_time,
                       description := revision.description, is_deleted := false }
            else r).find? (fun r => r.id = bid) with
        | none => simp only [restore_revision, hf, hb, hv, hrow]
        | some row => simp [restore_revision, hf, hb, hv, hrow] at h

theorem restore_ok_shape (st : StoreState) (i : Nat) (cb : String) (r : BreakRow)
    (h : (restore_revision st i cb).1 = Except.ok r) :
    ∃ rev : RevisionRow, rev.change_type = "restore" ∧
      (restore_revision st i cb).2.revisions = st.revisions ++ [rev] ∧
      r ∈ (restore_revision st i cb).2.breaks := by
  cases hf : st.revisions.find? (fun r2 => r2.id = i) with
  | none => simp [restore_revision, hf] at h
  | some revision =>
    cases hb : revision.break_id with
    | none => simp [restore_revision, hf, hb] at h
    | some bid =>
      cases hv : _validate_time_range st (PyValue.str revision.start_time)
          (PyValue.str revision.end_time) (some bid) with
      | error e0 => simp [restore_revision, hf, hb, hv] at h
      | ok p =>
        cases hrow : (st.breaks.map fun r2 =>
            if r2.id = bid then
              { r2 with start_time := revision.start_time, end_time := revision.end_time,
                        description := revision.description, is_deleted := false }
            else r2).find? (fun r2 => r2.id = bid) with
        | none => simp [restore_revision, hf, hb, hv, hrow] at h
        | some row =>
          simp only [restore_revision, hf, hb, hv, hrow] at h ⊢
          injection h with h2
          subst h2
          exact ⟨_, rfl, rfl, List.mem_of_find?_eq_some hrow⟩

theorem insert_break_revisions (st : StoreState) (s e d : String) (bid : Option Nat) :
    (_insert_break st s e d bid).2.revisions = st.revisions := by
  cases bid with
  | none => rfl
  | some b =>
    by_cases h : st.breaks.any (fun r => r.id = b) <;> simp [_insert_break, h]

theorem seedEntryStep_shape (cb : String) (st : StoreState) (item : SeedEntry) :
    (∀ s e, item.startv = some s → item.endv = some e →
      ∃ rev : RevisionRow, rev.change_type = "seed" ∧
        (seedEntryStep cb st item).revisions = st.revisions ++ [rev]) ∧
    ((item.startv = none ∨ item.endv = none) → seedEntryStep cb st item = st) := by
  constructor
  · intro s e hs he
    simp only [seedEntryStep, hs, he]
    exact ⟨_, rfl, by rw [insert_break_revisions]⟩
  · rintro (h | h)
    · simp [seedEntryStep, h]
    · cases hs : item.startv <;> simp [seedEntryStep, hs, h]

theorem seedEntryStep_revisions (cb : String) (st : StoreState) (item : SeedEntry) :
    ∃ t, (seedEntryStep cb st item).revisions = st.revisions ++ t := by
  cases hs : item.startv with
  | none => exact ⟨[], by simp [(seedEntryStep_shape cb st item).2 (Or.inl hs)]⟩
  | some s =>
    cases he : item.endv with
    | none => exact ⟨[], by simp [(seedEntryStep_shape cb st item).2 (Or.inr he)]⟩
    | some e =>
      obtain ⟨rev, _, hr⟩ := (seedEntryStep_shape cb st item).1 s e hs he
      exact ⟨[rev], hr⟩

theorem seed_fold_revisions (cb : String) (l : List SeedEntry) (st : StoreState) :
    ∃ t, (l.foldl (seedEntryStep cb) st).revisions = st.revisions ++ t := by
  induction l generalizing st with
  | nil => exact ⟨[], by simp⟩
  | cons x xs ih =>
    obtain ⟨t2, h2⟩ := ih (seedEntryStep cb st x)
    obtain ⟨t1, h1⟩ := seedEntryStep_revisions cb st x
    refine ⟨t1 ++ t2, ?_⟩
    rw [List.foldl_cons, h2, h1, List.append_assoc]

theorem seed_revisions (st : StoreState) (f : Option SeedFile) (cb : String) :
    ∃ t, (seed_from_json st f cb).revisions = st.revisions ++ t := by
  cases f with
  | none => exact ⟨[], by simp [seed_from_json]⟩
  | some payload =>
    by_cases h : st.breaks.any (fun r => !r.is_deleted)
    · exact ⟨[], by simp [seed_from_json, h]⟩
    · have := seed_fold_revisions cb payload.breaks st
      simpa [seed_from_json, h] using this

theorem step_revisions (s1 s2 : StoreState) (h : StoreStep s1 s2) :
    ∃ t, s2.revisions = s1.revisions ++ t := by
  cases h with
  | create a b d cb =>
    cases hr : (create_break s1 a b d cb).1 with
    | error e =>
      exact ⟨[], by rw [create_error_unchanged s1 a b d cb e hr]; simp⟩
    | ok r =>
      obtain ⟨rev, _, h2, _⟩ := create_ok_shape s1 a b d cb r hr
      exact ⟨[rev], h2⟩
  | update i a b d cb =>
    cases hr : (update_break s1 i a b d cb).1 with
    | error e =>
      exact ⟨[], by rw [update_error_unchanged s1 i a b d cb e hr]; simp⟩
    | ok r =>
      obtain ⟨rev, _, h2, _⟩ := update_ok_shape s1 i a b d cb r hr
      exact ⟨[rev], h2⟩
  | delete i cb =>
    cases hr : (delete_break s1 i cb).1 with
    | error e =>
      exact ⟨[], by rw [delete_error_unchanged s1 i cb e hr]; simp⟩
    | ok u =>
      obtain ⟨rev, _, h2, _⟩ := delete_ok_shape s1 i cb (by rw [hr])
      exact ⟨[rev], h2⟩
  | restore i cb =>
    cases hr : (restore_revision s1 i cb).1 with
    | error e =>
      exact ⟨[], by rw [restore_error_unchanged s1 i cb e hr]; simp⟩
    | ok r =>
      obtain ⟨rev, _, h2, _⟩ := restore_ok_shape s1 i cb r hr
      exact ⟨[rev], h2⟩
  | seed f cb => exact seed_revisions s1 f cb

theorem steps_revisions (s1 s2 : StoreState)
    (h : Relation.ReflTransGen StoreStep s1 s2) :
    ∃ t, s2.revisions = s1.revisions ++ t := by
  induction h with
  | refl => exact ⟨[], by simp⟩
  | tail h1 h2 ih =>
    obtain ⟨t1, ht1⟩ := ih
    obtain ⟨t2, ht2⟩ := step_revisions _ _ h2
    exact ⟨t1 ++ t2, by rw [ht2, ht1, List.append_assoc]⟩

/-- Claim C2: for an existing revision with a break reference whose stored
times pass validation (excluding that break), `restore_revision` overwrites
the break with the snapshot, clears `is_deleted`, appends exactly one
`restore` revision and returns the row; when validation fails, the call
returns a validation error and the state is unchanged. -/
theorem restore_correct (st : StoreState) (rid : Nat) (cb : String)
    (rev : RevisionRow) (bid : Nat)
    (hfind : st.revisions.find? (fun r => r.id = rid) = some rev)
    (hbid : rev.break_id = some bid)
    (hex : ∃ q ∈ st.breaks, q.id = bid) :
    (∀ p : Int × Int,
      _validate_time_range st (PyValue.str rev.start_time) (PyValue.str rev.end_time)
          (some bid) = Except.ok p →
      ∃ row : BreakRow,
        (restore_revision st rid cb).1 = Except.ok row ∧
        row.id = bid ∧ row.start_time = rev.start_time ∧ row.end_time = rev.end_time ∧
        row.description = rev.description ∧ row.is_deleted = false ∧
        row ∈ (restore_revision st rid cb).2.breaks ∧
        ∃ nrev : RevisionRow, nrev.change_type = "restore" ∧
          (restore_revision st rid cb).2.revisions = st.revisions ++ [nrev]) ∧
    (∀ e : StoreError,
      _validate_time_range st (PyValue.str rev.start_time) (PyValue.str rev.end_time)
          (some bid) = Except.error e →
      (restore_revision st rid cb).1 = Except.error StoreError.validation ∧
      (restore_revision st rid cb).2 = st) := by
  constructor
  · intro p hv
    obtain ⟨q, hq, hqid⟩ := hex
    set f : BreakRow → BreakRow := fun r =>
      if r.id = bid then
        { r with start_time := rev.start_time, end_time := rev.end_time,
                 description := rev.description, is_deleted := false }
      else r with hf
    have hsome : ((st.breaks.map f).find? (fun r => r.id = bid)).isSome := by
      refine List.find?_isSome.mpr ⟨f q, List.mem_map.mpr ⟨q, hq, rfl⟩, ?_⟩
      have : (f q).id = q.id := by
        by_cases h : q.id = bid <;> simp [hf, h]
      simp [this, hqid]
    obtain ⟨row, hrow⟩ := Option.isSome_iff_exists.mp hsome
    have hrid : row.id = bid := by
      have := List.find?_some hrow
      simpa using this
    obtain ⟨q0, hq0, hq0e⟩ := List.mem_map.mp (List.mem_of_find?_eq_some hrow)
    have hq0id : q0.id = bid := by
      have : (f q0).id = q0.id := by
        by_cases h : q0.id = bid <;> simp [hf, h]
      rw [← hq0e] at hrid
      rw [← this, hrid]
    have hrowval : row = { q0 with start_time := rev.start_time, end_time := rev.end_time, description := rev.description, is_deleted := false } := by
      rw [← hq0e, hf]
      simp [hq0id]
    refine ⟨row, ?_, hrid, ?_, ?_, ?_, ?_, ?_, ?_⟩
    · simp only [restore_revision, hfind, hbid, hv, hrow]
    · rw [hrowval]
    · rw [hrowval]
    · rw [hrowval]
    · rw [hrowval]
    · simp only [restore_revision, hfind, hbid, hv, hrow]
      exact List.mem_of_find?_eq_some hrow
    · refine ⟨{ id := st.next_revision_id, break_id := some bid, start_time := rev.start_time, end_time := rev.end_time, description := rev.description, change_type := "restore", changed_by := cb }, rfl, ?_⟩
      simp only [restore_revision, hfind, hbid, hv, hrow]
  · intro e hv
    have he : e = StoreError.validation := validate_error_validation _ _ _ _ _ hv
    subst he
    constructor
    · simp only [restore_revision, hfind, hbid, hv]
    · simp only [restore_revision, hfind, hbid, hv]

/-- Claim C6: `update_break` and `delete_break` fail with not-found exactly
when no row with the id exists or that row is soft-deleted, and in that case
the state is unchanged. -/
theorem update_delete_not_found (st : StoreState) (i : Nat) (a b : PyValue)
    (d cb : String) :
    ((update_break st i a b d cb).1 = Except.error StoreError.notFound ↔
        missingOrDeleted st i) ∧
    ((delete_break st i cb).1 = Except.error StoreError.notFound ↔
        missingOrDeleted st i) ∧
    (missingOrDeleted st i →
      (update_break st i a b d cb).2 = st ∧ (delete_break st i cb).2 = st) := by
  cases hf : st.breaks.find? (fun r => r.id = i) with
  | none =>
    have hm : missingOrDeleted st i := Or.inl hf
    refine ⟨⟨fun _ => hm, fun _ => ?_⟩, ⟨fun _ => hm, fun _ => ?_⟩, fun _ => ⟨?_, ?_⟩⟩
    · simp [update_break, hf]
    · simp [delete_break, hf]
    · simp [update_break, hf]
    · simp [delete_break, hf]
  | some existing =>
    cases hdel : existing.is_deleted with
    | true =>
      have hm : missingOrDeleted st i := Or.inr ⟨existing, hf, hdel⟩
      refine ⟨⟨fun _ => hm, fun _ => ?_⟩, ⟨fun _ => hm, fun _ => ?_⟩, fun _ => ⟨?_, ?_⟩⟩
      · simp [update_break, hf, hdel]
      · simp [delete_break, hf, hdel]
      · simp [update_break, hf, hdel]
      · simp [delete_break, hf, hdel]
    | false =>
      have hnm : ¬ missingOrDeleted st i := by
        rintro (h1 | ⟨r, hr, hd⟩)
        · rw [hf] at h1; cases h1
        · rw [hf] at hr
          injection hr with hr2
          subst hr2
          rw [hdel] at hd
          cases hd
      refine ⟨⟨fun hh => absurd ?_ hnm, fun hm => absurd hm hnm⟩,
              ⟨fun hh => absurd ?_ hnm, fun hm => absurd hm hnm⟩,
              fun hm => absurd hm hnm⟩
      · exfalso
        cases hv : _validate_time_range st a b (some i) with
        | error e0 =>
          have he0 : e0 = StoreError.validation := validate_error_validation _ _ _ _ _ hv
          subst he0
          simp [update_break, hf, hdel, hv] at hh
        | ok p => simp [update_break, hf, hdel, hv] at hh
      · exfalso
        simp [delete_break, hf, hdel] at hh

/-- Claim C7: `seed_from_json` is a no-op when the source file is absent or
any active break exists; in particular a second call after a seeding that
left an active break changes nothing. -/
theorem seed_noop (st : StoreState) (file : Option SeedFile) (cb : String)
    (h : file = none ∨ ∃ r ∈ st.breaks, r.is_deleted = false) :
    seed_from_json st file cb = st := by
  rcases h with rfl | ⟨r, hr, hdel⟩
  · rfl
  · cases file with
    | none => rfl
    | some payload =>
      have ha : st.breaks.any (fun r2 => !r2.is_deleted) = true :=
        List.any_eq_true.mpr ⟨r, hr, by simp [hdel]⟩
      simp [seed_from_json, ha]

/-- Witness for C7: seeding over a store that already has an active break. -/
theorem seed_noop_witness :
    seed_from_json oneBreakState (some overlappingSeedFile) "seed" = oneBreakState :=
  seed_noop oneBreakState (some overlappingSeedFile) "seed"
    (Or.inr ⟨{ id := 1, start_time := "09:00", end_time := "09:15",
               description := "Morning", is_deleted := false },
      by simp [oneBreakState], rfl⟩)

/-- Claim C9: `seed_from_json` inserts every entry having both `start` and
`end` without any time validation: after seeding the concrete bootstrap file
above, two active breaks overlap and a third has an unparseable start. -/
theorem seed_unvalidated :
    (∃ r1 ∈ (seed_from_json initialState (some overlappingSeedFile) "seed").breaks,
      ∃ r2 ∈ (seed_from_json initialState (some overlappingSeedFile) "seed").breaks,
        r1.is_deleted = false ∧ r2.is_deleted = false ∧ r1.id ≠ r2.id ∧ overlapsRow r1 r2) ∧
    (∃ r3 ∈ (seed_from_json initialState (some overlappingSeedFile) "seed").breaks,
      r3.is_deleted = false ∧
        _time_to_minutes (PyValue.str r3.start_time) = Except.error StoreError.validation) := by
  constructor
  · refine ⟨{ id := 1, start_time := "09:00", end_time := "09:30", description := "A", is_deleted := false }, by decide, { id := 2, start_time := "09:15", end_time := "09:45", description := "B", is_deleted := false }, by decide, rfl, rfl, by decide, ?_⟩
    exact ⟨540, 570, 555, 585, rfl, rfl, rfl, rfl, by decide⟩
  · exact ⟨{ id := 3, start_time := "banana", end_time := "split", description := "C", is_deleted := false }, by decide, rfl, rfl⟩

theorem validate_noneV_end (st : StoreState) (a : PyValue) (x : Option Nat) :
    _validate_time_range st a PyValue.noneV x = Except.error StoreError.validation := by
  simp only [_validate_time_range]
  split
  next e hp => rw [tm_error_validation _ _ hp]
  next s hp => rfl

/-- Claim C10: every non-string input and every string that does not split
on `:` into exactly two `int()`-parsable parts is rejected as a validation
error (the caught `ValueError`/`AttributeError`), so `create_break` and
`update_break` return a validation error rather than crashing; in particular
a missing JSON field arriving as `None` yields a validation error with the
state unchanged. -/
theorem parse_malformed :
    (∀ v : PyValue, (∀ s : String, v ≠ PyValue.str s) →
      _time_to_minutes v = Except.error StoreError.validation) ∧
    (∀ s : String,
      (∀ hs ms : List Char, splitCols s.data = [hs, ms] →
        pyInt hs = none ∨ pyInt ms = none) →
      _time_to_minutes (PyValue.str s) = Except.error StoreError.validation) ∧
    (∀ st b d cb, create_break st PyValue.noneV b d cb =
      (Except.error StoreError.validation, st)) ∧
    (∀ st a d cb, create_break st a PyValue.noneV d cb =
      (Except.error StoreError.validation, st)) ∧
    (∀ st i b d cb existing, st.breaks.find? (fun r => r.id = i) = some existing →
      existing.is_deleted = false →
      update_break st i PyValue.noneV b d cb = (Except.error StoreError.validation, st)) := by
  refine ⟨?_, ?_, ?_, ?_, ?_⟩
  · intro v hns
    cases v with
    | str s => exact absurd rfl (hns s)
    | noneV => rfl
    | other => rfl
  · intro s hyp
    simp only [_time_to_minutes]
    split
    next hs ms heq =>
      rcases hyp hs ms heq with h | h
      · simp [h]
      · cases hph : pyInt hs <;> simp [h, hph]
    next => rfl
  · intro st b d cb; rfl
  · intro st a d cb
    simp only [create_break, validate_noneV_end]
  · intro st i b d cb existing hf hdel
    simp [update_break, hf, hdel, _validate_time_range, _time_to_minutes]

/-- Counterexample to C3 as stated: `"9:5"` is not rejected; `int("9")` and
`int("5")` both parse and pass the range check, so `create_break` succeeds
and stores the unpadded string. -/
theorem create_break_accepts_9_5 :
    (create_break initialState (PyValue.str "9:5") (PyValue.str "10:00") "x" "u").1 =
      Except.ok { id := 1, start_time := "9:5", end_time := "10:00",
                  description := "x", is_deleted := false } := rfl

theorem validate_bad_end (st : StoreState) (a : PyValue) (x : Option Nat) (s : String)
    (hs : _time_to_minutes (PyValue.str s) = Except.error StoreError.validation) :
    _validate_time_range st a (PyValue.str s) x = Except.error StoreError.validation := by
  simp only [_validate_time_range]
  split
  next e hp => rw [tm_error_validation _ _ hp]
  next s0 hp => rw [hs]

/-- Claim C3 (amended): `"24:00"` and `"12:60"` fail validation without
mutating state, whether supplied as start or as end; but `"9:5"` is accepted
by the parser (as 9 hours 5 minutes = 545), since `int()` accepts unpadded
components — only strings whose colon-split parts fail `int()` parsing, or
whose parsed hour/minute is out of range, are rejected. -/
theorem time_validation_amended :
    (∀ st : StoreState, ∀ fin : PyValue, ∀ d cb : String,
      create_break st (PyValue.str "24:00") fin d cb =
        (Except.error StoreError.validation, st)) ∧
    (∀ st : StoreState, ∀ start : PyValue, ∀ d cb : String,
      create_break st start (PyValue.str "24:00") d cb =
        (Except.error StoreError.validation, st)) ∧
    (∀ st : StoreState, ∀ fin : PyValue, ∀ d cb : String,
      create_break st (PyValue.str "12:60") fin d cb =
        (Except.error StoreError.validation, st)) ∧
    (∀ st : StoreState, ∀ start : PyValue, ∀ d cb : String,
      create_break st start (PyValue.str "12:60") d cb =
        (Except.error StoreError.validation, st)) ∧
    _time_to_minutes (PyValue.str "9:5") = Except.ok 545 := by
  refine ⟨?_, ?_, ?_, ?_, rfl⟩
  · intro st fin d cb; rfl
  · intro st start d cb
    simp only [create_break, validate_bad_end st start none "24:00" rfl]
  · intro st fin d cb; rfl
  · intro st start d cb
    simp only [create_break, validate_bad_end st start none "12:60" rfl]

/-- Witness for C3 (amended): the `"24:00"` rejection at a concrete state. -/
theorem time_validation_amended_witness :
    create_break oneBreakState (PyValue.str "24:00") (PyValue.str "25:00") "" "u" =
      (Except.error StoreError.validation, oneBreakState) :=
  time_validation_amended.1 oneBreakState (PyValue.str "25:00") "" "u"

/-- Claim C4: each mutating operation is atomic — on any error the state is
returned unchanged, and on success the row write and the single revision
append are both present in the post-state. -/
theorem atomic_operations :
    (∀ st : StoreState, ∀ a b : PyValue, ∀ d cb : String, ∀ e : StoreError,
      (create_break st a b d cb).1 = Except.error e →
        (create_break st a b d cb).2 = st) ∧
    (∀ st : StoreState, ∀ a b : PyValue, ∀ d cb : String, ∀ r : BreakRow,
      (create_break st a b d cb).1 = Except.ok r →
        ∃ rev : RevisionRow, rev.change_type = "create" ∧
          (create_break st a b d cb).2.revisions = st.revisions ++ [rev] ∧
          (create_break st a b d cb).2.breaks = st.breaks ++ [r]) ∧
    (∀ st : StoreState, ∀ i : Nat, ∀ a b : PyValue, ∀ d cb : String, ∀ e : StoreError,
      (update_break st i a b d cb).1 = Except.error e →
        (update_break st i a b d cb).2 = st) ∧
    (∀ st : StoreState, ∀ i : Nat, ∀ a b : PyValue, ∀ d cb : String, ∀ r : BreakRow,
      (update_break st i a b d cb).1 = Except.ok r →
        ∃ rev : RevisionRow, rev.change_type = "update" ∧
          (update_break st i a b d cb).2.revisions = st.revisions ++ [rev] ∧
          r ∈ (update_break st i a b d cb).2.breaks) ∧
    (∀ st : StoreState, ∀ i : Nat, ∀ cb : String, ∀ e : StoreError,
      (delete_break st i cb).1 = Except.error e → (delete_break st i cb).2 = st) ∧
    (∀ st : StoreState, ∀ i : Nat, ∀ cb : String,
      (delete_break st i cb).1 = Except.ok () →
        ∃ rev : RevisionRow, rev.change_type = "delete" ∧
          (delete_break st i cb).2.revisions = st.revisions ++ [rev] ∧
          ∃ r ∈ (delete_break st i cb).2.breaks, r.id = i ∧ r.is_deleted = true) ∧
    (∀ st : StoreState, ∀ i : Nat, ∀ cb : String, ∀ e : StoreError,
      (restore_revision st i cb).1 = Except.error e →
        (restore_revision st i cb).2 = st) ∧
    (∀ st : StoreState, ∀ i : Nat, ∀ cb : String, ∀ r : BreakRow,
      (restore_revision st i cb).1 = Except.ok r →
        ∃ rev : RevisionRow, rev.change_type = "restore" ∧
          (restore_revision st i cb).2.revisions = st.revisions ++ [rev] ∧
          r ∈ (restore_revision st i cb).2.breaks) :=
  ⟨create_error_unchanged, create_ok_shape, update_error_unchanged, update_ok_shape,
   delete_error_unchanged, delete_ok_shape, restore_error_unchanged, restore_ok_shape⟩

/-- Witness for C4: a failing create (malformed `None` start) leaves the
concrete state untouched. -/
theorem atomic_operations_witness :
    (create_break oneBreakState PyValue.noneV (PyValue.str "10:00") "" "u").2 =
      oneBreakState :=
  atomic_operations.1 oneBreakState PyValue.noneV (PyValue.str "10:00") "" "u"
    StoreError.validation rfl

/-- Claim C8: revisions are append-only — across any sequence of store
operations the revision list only grows by appending (so its count never
decreases and existing rows are untouched), and each successful mutating
operation appends exactly one revision of the corresponding change type
(one `seed` revision per complete bootstrap entry). -/
theorem revisions_append_only :
    (∀ s1 s2 : StoreState, Relation.ReflTransGen StoreStep s1 s2 →
      ∃ t, s2.revisions = s1.revisions ++ t) ∧
    (∀ st : StoreState, ∀ a b : PyValue, ∀ d cb : String, ∀ r : BreakRow,
      (create_break st a b d cb).1 = Except.ok r →
        ∃ rev : RevisionRow, rev.change_type = "create" ∧
          (create_break st a b d cb).2.revisions = st.revisions ++ [rev]) ∧
    (∀ st : StoreState, ∀ i : Nat, ∀ a b : PyValue, ∀ d cb : String, ∀ r : BreakRow,
      (update_break st i a b d cb).1 = Except.ok r →
        ∃ rev : RevisionRow, rev.change_type = "update" ∧
          (update_break st i a b d cb).2.revisions = st.revisions ++ [rev]) ∧
    (∀ st : StoreState, ∀ i : Nat, ∀ cb : String,
      (delete_break st i cb).1 = Except.ok () →
        ∃ rev : RevisionRow, rev.change_type = "delete" ∧
          (delete_break st i cb).2.revisions = st.revisions ++ [rev]) ∧
    (∀ st : StoreState, ∀ i : Nat, ∀ cb : String, ∀ r : BreakRow,
      (restore_revision st i cb).1 = Except.ok r →
        ∃ rev : RevisionRow, rev.change_type = "restore" ∧
          (restore_revision st i cb).2.revisions = st.revisions ++ [rev]) ∧
    (∀ cb : String, ∀ st : StoreState, ∀ item : SeedEntry, ∀ s e : String,
      item.startv = some s → item.endv = some e →
        ∃ rev : RevisionRow, rev.change_type = "seed" ∧
          (seedEntryStep cb st item).revisions = st.revisions ++ [rev]) ∧
    (∀ cb : String, ∀ st : StoreState, ∀ item : SeedEntry,
      (item.startv = none ∨ item.endv = none) → seedEntryStep cb st item = st) := by
  refine ⟨steps_revisions, ?_, ?_, ?_, ?_, ?_, ?_⟩
  · intro st a b d cb r h
    obtain ⟨rev, h1, h2, _⟩ := create_ok_shape st a b d cb r h
    exact ⟨rev, h1, h2⟩
  · intro st i a b d cb r h
    obtain ⟨rev, h1, h2, _⟩ := update_ok_shape st i a b d cb r h
    exact ⟨rev, h1, h2⟩
  · intro st i cb h
    obtain ⟨rev, h1, h2, _⟩ := delete_ok_shape st i cb h
    exact ⟨rev, h1, h2⟩
  · intro st i cb r h
    obtain ⟨rev, h1, h2, _⟩ := restore_ok_shape st i cb r h
    exact ⟨rev, h1, h2⟩
  · intro cb st item s e hs he
    exact (seedEntryStep_shape cb st item).1 s e hs he
  · intro cb st item h
    exact (seedEntryStep_shape cb st item).2 h

/-- Witness for C8: the revision list after one concrete create step extends
the initial one. -/
theorem revisions_append_only_witness :
    ∃ t, (create_break initialState (PyValue.str "08:00") (PyValue.str "08:15")
        "Morning" "u").2.revisions = initialState.revisions ++ t :=
  revisions_append_only.1 initialState _
    (Relation.ReflTransGen.single
      (StoreStep.create initialState (PyValue.str "08:00") (PyValue.str "08:15")
        "Morning" "u"))

/-- Witness for C2: restoring the `create` revision of the one-break store
succeeds and reproduces the snapshot. -/
theorem restore_correct_witness :
    ∃ row : BreakRow,
      (restore_revision oneBreakState 1 "w").1 = Except.ok row ∧
      row.id = 1 ∧ row.start_time = "09:00" ∧ row.end_time = "09:15" ∧
      row.description = "Morning" ∧ row.is_deleted = false ∧
      row ∈ (restore_revision oneBreakState 1 "w").2.breaks ∧
      ∃ nrev : RevisionRow, nrev.change_type = "restore" ∧
        (restore_revision oneBreakState 1 "w").2.revisions =
          oneBreakState.revisions ++ [nrev] :=
  (restore_correct oneBreakState 1 "w"
      { id := 1, break_id := some 1, start_time := "09:00", end_time := "09:15",
        description := "Morning", change_type := "create", changed_by := "u" } 1
      rfl rfl
      ⟨{ id := 1, start_time := "09:00", end_time := "09:15",
         description := "Morning", is_deleted := false },
        by simp [oneBreakState], rfl⟩).1
    (540, 555) rfl

/-- Witness for C6: updating a missing id on the concrete one-break store
fails with not-found. -/
theorem update_delete_not_found_witness :
    (update_break oneBreakState 2 (PyValue.str "09:00") (PyValue.str "09:15")
        "" "u").1 = Except.error StoreError.notFound :=
  (update_delete_not_found oneBreakState 2 (PyValue.str "09:00")
      (PyValue.str "09:15") "" "u").1.mpr (Or.inl rfl)

/-- Witness for C10: a `None` start at a concrete state yields a validation
error with the state unchanged. -/
theorem parse_malformed_witness :
    create_break oneBreakState PyValue.noneV (PyValue.str "10:00") "" "u" =
      (Except.error StoreError.validation, oneBreakState) :=
  parse_malformed.2.2.1 oneBreakState (PyValue.str "10:00") "" "u"
